import Mathlib

/-!
Verification of the Professor-office priority monitors.

Two monitor variants appear in the repository:

* `PR` embeds the 4-tier monitor of `src/PR.py` (`OfficeMonitor` with queues
  for returning researchers, new researchers, TAs and students);
* `ProfessorOffice` embeds the 2-tier monitor of `src/professorOffice.py`
  (`OfficeMonitor` with queues for TAs and students).

Each Python method body is embedded as a pure function on an explicit state
record.  The Mesa-style `enter` method is split into its two atomic critical
sections: the initial enqueue (`enqueue`) and the admission step executed when
the predicate `can_enter` evaluates true (`grant`).  The blocking/wakeup
behaviour of the condition variable is modelled by the labelled transition
system `PR.step` further below, in which each visitor thread is either idle,
waiting (runnable or blocked on the condition variable), holding the office,
or done, and `leave` makes every thread runnable again (`notify_all`).
-/

namespace PR

/-- State of `OfficeMonitor` in `src/PR.py` (lines 46-54): occupancy flag,
current occupant as a `(role, name)` pair, and the four priority queues. -/
structure MState where
  occupied : Bool
  current : Option (String × String)
  waiting_returning_researchers : List String
  waiting_new_researchers : List String
  waiting_tas : List String
  waiting_students : List String
deriving Repr, DecidableEq

/-- `OfficeMonitor.__init__` (src/PR.py lines 46-54). -/
def initState : MState :=
  { occupied := false
    current := none
    waiting_returning_researchers := []
    waiting_new_researchers := []
    waiting_tas := []
    waiting_students := [] }

/-- `OfficeMonitor.snapshot` (src/PR.py lines 57-67): reads all fields under
the lock and returns copies; the state component of the result is the state
the method leaves behind. -/
def snapshot (s : MState) :
    MState × (Bool × Option (String × String) × List String × List String ×
      List String × List String) :=
  (s, (s.occupied, s.current, s.waiting_returning_researchers,
    s.waiting_new_researchers, s.waiting_tas, s.waiting_students))

/-- The enqueue prefix of `OfficeMonitor.enter` (src/PR.py lines 80-88):
append `name` to the queue selected by `role`/`returning`; any role other
than `"Researcher"` and `"TA"` falls into the student queue. -/
def enqueue (role name : String) (returning : Bool) (s : MState) : MState :=
  if role == "Researcher" then
    if returning then
      { s with waiting_returning_researchers :=
          s.waiting_returning_researchers ++ [name] }
    else
      { s with waiting_new_researchers := s.waiting_new_researchers ++ [name] }
  else if role == "TA" then
    { s with waiting_tas := s.waiting_tas ++ [name] }
  else
    { s with waiting_students := s.waiting_students ++ [name] }

/-- The admission predicate computed by the wait loop of
`OfficeMonitor.enter` (src/PR.py lines 90-101): the office must be free and
the caller must match the head of the first non-empty queue in priority
order. -/
def can_enter (role name : String) (returning : Bool) (s : MState) : Bool :=
  if s.occupied then false
  else if !s.waiting_returning_researchers.isEmpty then
    role == "Researcher" && returning &&
      (s.waiting_returning_researchers.head? == some name)
  else if !s.waiting_new_researchers.isEmpty then
    role == "Researcher" && !returning &&
      (s.waiting_new_researchers.head? == some name)
  else if !s.waiting_tas.isEmpty then
    role == "TA" && (s.waiting_tas.head? == some name)
  else if !s.waiting_students.isEmpty then
    role == "Student" && (s.waiting_students.head? == some name)
  else false

/-- The admission body of `OfficeMonitor.enter` (src/PR.py lines 102-118),
executed when `can_enter` is true: set `occupied`, record the occupant and
pop the caller from the head of its queue. -/
def grant (role name : String) (returning : Bool) (s : MState) : MState :=
  let s1 := { s with occupied := true, current := some (role, name) }
  if role == "Researcher" then
    if returning then
      { s1 with waiting_returning_researchers :=
          s1.waiting_returning_researchers.tail }
    else
      { s1 with waiting_new_researchers := s1.waiting_new_researchers.tail }
  else if role == "TA" then
    { s1 with waiting_tas := s1.waiting_tas.tail }
  else
    { s1 with waiting_students := s1.waiting_students.tail }

/-- `OfficeMonitor.leave` (src/PR.py lines 121-125): unconditionally clear
the occupancy fields.  The `notify_all` broadcast is modelled in the
transition system below. -/
def leave (s : MState) : MState :=
  { s with occupied := false, current := none }

/-- The tier rank a caller is enqueued into, following the branch structure
of `enter`: returning researcher 0, new researcher 1, TA 2, everything else
(including students) 3. -/
def tierOf (role : String) (returning : Bool) : Nat :=
  if role == "Researcher" then (if returning then 0 else 1)
  else if role == "TA" then 2
  else 3

/-- The queue of a given tier rank. -/
def queueAt (s : MState) : Nat → List String
  | 0 => s.waiting_returning_researchers
  | 1 => s.waiting_new_researchers
  | 2 => s.waiting_tas
  | 3 => s.waiting_students
  | _ + 4 => []

/-- The active tier: the first tier, in ascending rank order, with a
non-empty queue. -/
def activeTier (s : MState) : Option Nat :=
  if !s.waiting_returning_researchers.isEmpty then some 0
  else if !s.waiting_new_researchers.isEmpty then some 1
  else if !s.waiting_tas.isEmpty then some 2
  else if !s.waiting_students.isEmpty then some 3
  else none

/-- Modelled from the spec: the admission predicate as the spec words it -
the caller `(tier, id)` is admissible iff the office is free, its tier is the
active tier, and its id heads that tier's queue.  Used to compare the code's
`can_enter` against the spec. -/
def can_enter_spec (tier : Nat) (name : String) (s : MState) : Bool :=
  !s.occupied && (activeTier s == some tier) &&
    ((queueAt s tier).head? == some name)

end PR

namespace ProfessorOffice

/-- State of `OfficeMonitor` in `src/professorOffice.py` (lines 24-29). -/
structure MState where
  occupied : Bool
  current : Option (String × String)
  waiting_tas : List String
  waiting_students : List String
deriving Repr, DecidableEq

/-- `OfficeMonitor.__init__` (src/professorOffice.py lines 24-29). -/
def initState : MState :=
  { occupied := false, current := none, waiting_tas := [],
    waiting_students := [] }

/-- `OfficeMonitor.snapshot` (src/professorOffice.py lines 32-40). -/
def snapshot (s : MState) :
    MState × (Bool × Option (String × String) × List String × List String) :=
  (s, (s.occupied, s.current, s.waiting_tas, s.waiting_students))

/-- The enqueue prefix of `OfficeMonitor.enter`
(src/professorOffice.py lines 49-53): TAs join the TA queue, every other
role joins the student queue. -/
def enqueue (role name : String) (s : MState) : MState :=
  if role == "TA" then
    { s with waiting_tas := s.waiting_tas ++ [name] }
  else
    { s with waiting_students := s.waiting_students ++ [name] }

/-- The admission predicate of `OfficeMonitor.enter`
(src/professorOffice.py lines 56-65). -/
def can_enter (role name : String) (s : MState) : Bool :=
  if s.occupied then false
  else if role == "TA" then
    !s.waiting_tas.isEmpty && (s.waiting_tas.head? == some name)
  else
    !s.waiting_students.isEmpty && (s.waiting_students.head? == some name) &&
      s.waiting_tas.isEmpty

/-- The admission body of `OfficeMonitor.enter`
(src/professorOffice.py lines 66-76). -/
def grant (role name : String) (s : MState) : MState :=
  let s1 := { s with occupied := true, current := some (role, name) }
  if role == "TA" then
    { s1 with waiting_tas := s1.waiting_tas.tail }
  else
    { s1 with waiting_students := s1.waiting_students.tail }

/-- `OfficeMonitor.leave` (src/professorOffice.py lines 79-85). -/
def leave (s : MState) : MState :=
  { s with occupied := false, current := none }

/-- Tier rank of a caller: TA 0, everything else 1, matching the branch
structure of `enter`. -/
def tierOf (role : String) : Nat :=
  if role == "TA" then 0 else 1

/-- The queue of a given tier rank. -/
def queueAt (s : MState) : Nat → List String
  | 0 => s.waiting_tas
  | 1 => s.waiting_students
  | _ + 2 => []

/-- The active tier in the 2-tier configuration. -/
def activeTier (s : MState) : Option Nat :=
  if !s.waiting_tas.isEmpty then some 0
  else if !s.waiting_students.isEmpty then some 1
  else none

/-- Modelled from the spec: the spec's wording of the admission predicate for
the 2-tier configuration. -/
def can_enter_spec (tier : Nat) (name : String) (s : MState) : Bool :=
  !s.occupied && (activeTier s == some tier) &&
    ((queueAt s tier).head? == some name)

/-- Occupancy half of the invariant for the 2-tier monitor: the `occupied`
flag mirrors population of the occupant slot `current`. -/
def occInv (s : MState) : Prop := s.occupied = s.current.isSome

theorem po_enqueue_occupied (role name : String) (s : MState) :
    (enqueue role name s).occupied = s.occupied := by
  unfold enqueue
  split <;> rfl

theorem po_enqueue_current (role name : String) (s : MState) :
    (enqueue role name s).current = s.current := by
  unfold enqueue
  split <;> rfl

theorem po_grant_occupied (role name : String) (s : MState) :
    (grant role name s).occupied = true := by
  unfold grant
  split <;> rfl

theorem po_grant_current (role name : String) (s : MState) :
    (grant role name s).current = some (role, name) := by
  unfold grant
  split <;> rfl

theorem po_queueAt_enqueue (role name : String) (s : MState) (t : Nat) :
    queueAt (enqueue role name s) t =
      if t = tierOf role then queueAt s t ++ [name] else queueAt s t := by
  cases hT : role == "TA" <;>
    simp only [enqueue, tierOf, hT, if_true, if_false, Bool.false_eq_true,
      ite_true, ite_false] <;>
    rcases t with _ | _ | t <;>
    simp [queueAt]

theorem po_queueAt_grant (role name : String) (s : MState) (t : Nat) :
    queueAt (grant role name s) t =
      if t = tierOf role then (queueAt s t).tail else queueAt s t := by
  cases hT : role == "TA" <;>
    simp only [grant, tierOf, hT, if_true, if_false, Bool.false_eq_true,
      ite_true, ite_false] <;>
    rcases t with _ | _ | t <;>
    simp [queueAt]

theorem po_can_enter_not_occupied {role name : String} {s : MState}
    (h : can_enter role name s = true) : s.occupied = false := by
  cases hocc : s.occupied
  · rfl
  · unfold can_enter at h
    simp [hocc] at h

theorem po_can_enter_head {role name : String} {s : MState}
    (h : can_enter role name s = true) :
    (queueAt s (tierOf role)).head? = some name := by
  unfold can_enter at h
  split at h
  · simp at h
  · split at h
    · rename_i hT
      simp only [Bool.and_eq_true, beq_iff_eq] at h
      obtain ⟨_, hhead⟩ := h
      simpa [tierOf, hT, queueAt] using hhead
    · rename_i hT
      simp only [Bool.not_eq_true] at hT
      simp only [Bool.and_eq_true, beq_iff_eq] at h
      obtain ⟨⟨_, hhead⟩, _⟩ := h
      simpa [tierOf, hT, queueAt] using hhead

theorem po_can_enter_eq_spec (role name : String) (s : MState) :
    can_enter role name s = can_enter_spec (tierOf role) name s := by
  cases hT : role == "TA" <;>
    cases hocc : s.occupied <;>
    cases hTA2 : s.waiting_tas <;>
    cases hST : s.waiting_students <;>
      simp [can_enter, can_enter_spec, activeTier, queueAt, tierOf, hT, hocc,
        hTA2, hST]

theorem po_activeTier_prefix_empty {s : MState} {tier : Nat}
    (h : activeTier s = some tier) (t' : Nat) (ht' : t' < tier) :
    queueAt s t' = [] := by
  cases hTA2 : s.waiting_tas <;>
  cases hST : s.waiting_students <;>
    simp only [activeTier, hTA2, hST, List.isEmpty_nil, List.isEmpty_cons,
      Bool.not_true, Bool.not_false, if_true, if_false, Bool.false_eq_true,
      ite_true, ite_false, Option.some.injEq, reduceCtorEq] at h <;>
    first
      | exact absurd h (by simp)
      | (rcases t' with _ | _ | t' <;>
          simp [queueAt, hTA2, hST] <;> omega)

end ProfessorOffice

namespace PR

/-- Phase of a visitor thread driving the monitor: before its `enter` call,
inside the wait loop of `enter`, holding the office, or after its `leave`. -/
inductive Phase where
  | idle
  | waiting
  | holding
  | done
deriving Repr, DecidableEq

/-- A visitor thread: its fixed call arguments `(role, name, returning)` to
`enter`, its phase, and whether it is runnable (`runnable = false` means it
is blocked in `self._cv.wait()`). -/
structure Thread where
  role : String
  name : String
  returning : Bool
  phase : Phase
  runnable : Bool
deriving Repr, DecidableEq

/-- Global state of the interleaved system: the monitor plus all threads. -/
structure Global where
  monitor : MState
  threads : List Thread
deriving Repr, DecidableEq

/-- Atomic critical sections a thread can execute, by thread index:
entering the queue (first lines of `enter`), evaluating the predicate to
false and waiting on the condition variable, evaluating it to true and
taking the office (the admission body of `enter`), and `leave`. -/
inductive Action where
  | arrive (i : Nat)
  | blockCv (i : Nat)
  | grantA (i : Nat)
  | leaveA (i : Nat)
deriving Repr, DecidableEq

/-- One atomic step of the interleaved system.  `none` means the action is
not enabled.  `leaveA` performs `leave` and models `notify_all` by making
every thread runnable again (broadcast). -/
def step (g : Global) : Action → Option Global
  | .arrive i =>
    (g.threads[i]?).bind fun t =>
      if t.phase = Phase.idle then
        some { monitor := enqueue t.role t.name t.returning g.monitor
               threads := g.threads.set i
                 { t with phase := Phase.waiting, runnable := true } }
      else none
  | .blockCv i =>
    (g.threads[i]?).bind fun t =>
      if t.phase = Phase.waiting ∧ t.runnable = true ∧
          can_enter t.role t.name t.returning g.monitor = false then
        some { g with threads := g.threads.set i { t with runnable := false } }
      else none
  | .grantA i =>
    (g.threads[i]?).bind fun t =>
      if t.phase = Phase.waiting ∧ t.runnable = true ∧
          can_enter t.role t.name t.returning g.monitor = true then
        some { monitor := grant t.role t.name t.returning g.monitor
               threads := g.threads.set i { t with phase := Phase.holding } }
      else none
  | .leaveA i =>
    (g.threads[i]?).bind fun t =>
      if t.phase = Phase.holding then
        some { monitor := leave g.monitor
               threads := ((g.threads.set i { t with phase := Phase.done }).map
                 fun u => { u with runnable := true }) }
      else none

/-- Execute a list of actions from a state; `none` if any action is not
enabled at its point of execution. -/
def run (g : Global) : List Action → Option Global
  | [] => some g
  | a :: rest => (step g a).bind fun g1 => run g1 rest

/-- An initial configuration: freshly constructed monitor, no thread has
called `enter` yet. -/
def Init (g : Global) : Prop :=
  g.monitor = initState ∧ ∀ t ∈ g.threads, t.phase = Phase.idle

/-- Reachability by some interleaving of enabled actions. -/
def Reachable (g0 g : Global) : Prop :=
  ∃ acts, run g0 acts = some g

/-- No thread currently holds the office. -/
def NoneHolding (g : Global) : Prop :=
  ∀ (i : Nat) (t : Thread), g.threads[i]? = some t → t.phase ≠ Phase.holding

/-- At most one thread currently holds the office. -/
def AtMostOneHolding (g : Global) : Prop :=
  ∀ (i j : Nat) (ti tj : Thread),
    g.threads[i]? = some ti → g.threads[j]? = some tj →
    ti.phase = Phase.holding → tj.phase = Phase.holding → i = j

/-- The occupancy invariant: the `occupied` flag mirrors population of the
occupant slot, and at most one request holds the office, none when the
office is marked free. -/
def Inv (g : Global) : Prop :=
  g.monitor.occupied = g.monitor.current.isSome ∧
  AtMostOneHolding g ∧
  (g.monitor.occupied = false → NoneHolding g)

theorem enqueue_occupied (role name : String) (ret : Bool) (s : MState) :
    (enqueue role name ret s).occupied = s.occupied := by
  unfold enqueue
  split
  · split <;> rfl
  · split <;> rfl

theorem enqueue_current (role name : String) (ret : Bool) (s : MState) :
    (enqueue role name ret s).current = s.current := by
  unfold enqueue
  split
  · split <;> rfl
  · split <;> rfl

theorem grant_occupied (role name : String) (ret : Bool) (s : MState) :
    (grant role name ret s).occupied = true := by
  unfold grant
  split
  · split <;> rfl
  · split <;> rfl

theorem grant_current (role name : String) (ret : Bool) (s : MState) :
    (grant role name ret s).current = some (role, name) := by
  unfold grant
  split
  · split <;> rfl
  · split <;> rfl

theorem queueAt_enqueue (role name : String) (ret : Bool) (s : MState)
    (t : Nat) :
    queueAt (enqueue role name ret s) t =
      if t = tierOf role ret then queueAt s t ++ [name] else queueAt s t := by
  cases hR : role == "Researcher" <;> cases hTA2 : role == "TA" <;>
    cases ret <;>
    simp only [enqueue, tierOf, hR, hTA2, if_true, if_false, Bool.false_eq_true,
      ite_true, ite_false] <;>
    rcases t with _ | _ | _ | _ | t <;>
    simp [queueAt]

theorem queueAt_grant (role name : String) (ret : Bool) (s : MState)
    (t : Nat) :
    queueAt (grant role name ret s) t =
      if t = tierOf role ret then (queueAt s t).tail else queueAt s t := by
  cases hR : role == "Researcher" <;> cases hTA2 : role == "TA" <;>
    cases ret <;>
    simp only [grant, tierOf, hR, hTA2, if_true, if_false, Bool.false_eq_true,
      ite_true, ite_false] <;>
    rcases t with _ | _ | _ | _ | t <;>
    simp [queueAt]

theorem can_enter_not_occupied {role name : String} {ret : Bool} {s : MState}
    (h : can_enter role name ret s = true) : s.occupied = false := by
  cases hocc : s.occupied
  · rfl
  · unfold can_enter at h
    simp [hocc] at h

theorem can_enter_head {role name : String} {ret : Bool} {s : MState}
    (h : can_enter role name ret s = true) :
    (queueAt s (tierOf role ret)).head? = some name := by
  unfold can_enter at h
  split at h
  · simp at h
  · split at h
    · simp only [Bool.and_eq_true, beq_iff_eq] at h
      obtain ⟨⟨h1, h2⟩, h3⟩ := h
      subst h1; subst h2
      simpa [tierOf, queueAt] using h3
    · split at h
      · simp only [Bool.and_eq_true, beq_iff_eq, Bool.not_eq_true'] at h
        obtain ⟨⟨h1, h2⟩, h3⟩ := h
        subst h1; subst h2
        simpa [tierOf, queueAt] using h3
      · split at h
        · simp only [Bool.and_eq_true, beq_iff_eq] at h
          obtain ⟨h1, h3⟩ := h
          subst h1
          simpa [tierOf, queueAt] using h3
        · split at h
          · simp only [Bool.and_eq_true, beq_iff_eq] at h
            obtain ⟨h1, h3⟩ := h
            subst h1
            simpa [tierOf, queueAt] using h3
          · simp at h

theorem can_enter_eq_spec (role name : String) (ret : Bool) (s : MState)
    (hrole : role = "Researcher" ∨ role = "TA" ∨ role = "Student") :
    can_enter role name ret s = can_enter_spec (tierOf role ret) name s := by
  rcases hrole with h | h | h <;> subst h <;> cases ret <;>
    cases hocc : s.occupied <;>
    cases hRR : s.waiting_returning_researchers <;>
    cases hNR : s.waiting_new_researchers <;>
    cases hTA2 : s.waiting_tas <;>
    cases hST : s.waiting_students <;>
      simp [can_enter, can_enter_spec, activeTier, queueAt, tierOf, hocc, hRR,
        hNR, hTA2, hST]

theorem activeTier_prefix_empty {s : MState} {tier : Nat}
    (h : activeTier s = some tier) (t' : Nat) (ht' : t' < tier) :
    queueAt s t' = [] := by
  cases hRR : s.waiting_returning_researchers <;>
  cases hNR : s.waiting_new_researchers <;>
  cases hTA2 : s.waiting_tas <;>
  cases hST : s.waiting_students <;>
    simp only [activeTier, hRR, hNR, hTA2, hST, List.isEmpty_nil,
      List.isEmpty_cons, Bool.not_true, Bool.not_false, if_true, if_false,
      Bool.false_eq_true, ite_true, ite_false, Option.some.injEq,
      reduceCtorEq] at h <;>
    first
      | exact absurd h (by simp)
      | (rcases t' with _ | _ | _ | _ | t' <;>
          simp [queueAt, hRR, hNR, hTA2, hST] <;> omega)

theorem get_set_cases {l : List Thread} {i k : Nat} {t t' u : Thread}
    (hget : l[i]? = some t) (hk : (l.set i t')[k]? = some u) :
    (k = i ∧ u = t') ∨ (k ≠ i ∧ l[k]? = some u) := by
  by_cases hik : i = k
  · subst hik
    left
    obtain ⟨hlen, -⟩ := List.getElem?_eq_some_iff.mp hget
    rw [List.getElem?_set, if_pos rfl, if_pos hlen] at hk
    exact ⟨rfl, (Option.some.inj hk).symm⟩
  · right
    rw [List.getElem?_set, if_neg hik] at hk
    exact ⟨fun h => hik h.symm, hk⟩

theorem step_inv {g g' : Global} {a : Action} (hinv : Inv g)
    (hstep : step g a = some g') : Inv g' := by
  obtain ⟨hoc, hone, hnone⟩ := hinv
  cases a with
  | arrive i =>
    simp only [step] at hstep
    cases hget : g.threads[i]? with
    | none => rw [hget] at hstep; simp at hstep
    | some t =>
      rw [hget, Option.some_bind] at hstep
      split at hstep
      · injection hstep with hg'
        subst hg'
        refine ⟨?_, ?_, ?_⟩
        · simpa [enqueue_occupied, enqueue_current] using hoc
        · intro i' j' ti tj hti htj hpi hpj
          rcases get_set_cases hget hti with ⟨rfl, rfl⟩ | ⟨hne1, hti'⟩
          · simp at hpi
          · rcases get_set_cases hget htj with ⟨rfl, rfl⟩ | ⟨hne2, htj'⟩
            · simp at hpj
            · exact hone i' j' ti tj hti' htj' hpi hpj
        · intro hocc' k u hku
          rcases get_set_cases hget hku with ⟨rfl, rfl⟩ | ⟨hne, hku'⟩
          · simp
          · exact hnone (by simpa [enqueue_occupied] using hocc') k u hku'
      · cases hstep
  | blockCv i =>
    simp only [step] at hstep
    cases hget : g.threads[i]? with
    | none => rw [hget] at hstep; simp at hstep
    | some t =>
      rw [hget, Option.some_bind] at hstep
      split at hstep
      · injection hstep with hg'
        subst hg'
        refine ⟨hoc, ?_, ?_⟩
        · intro i' j' ti tj hti htj hpi hpj
          rcases get_set_cases hget hti with ⟨rfl, rfl⟩ | ⟨hne1, hti'⟩ <;>
            rcases get_set_cases hget htj with ⟨rfl, rfl⟩ | ⟨hne2, htj'⟩
          · rfl
          · simp only at hpi
            exact hone i' j' t tj hget htj' hpi hpj
          · simp only at hpj
            exact hone i' j' ti t hti' hget hpi hpj
          · exact hone i' j' ti tj hti' htj' hpi hpj
        · intro hocc' k u hku
          rcases get_set_cases hget hku with ⟨rfl, rfl⟩ | ⟨hne, hku'⟩
          · simp only []
            exact hnone hocc' k t hget
          · exact hnone hocc' k u hku'
      · cases hstep
  | grantA i =>
    simp only [step] at hstep
    cases hget : g.threads[i]? with
    | none => rw [hget] at hstep; simp at hstep
    | some t =>
      rw [hget, Option.some_bind] at hstep
      split at hstep
      · rename_i hcond
        have hfree : g.monitor.occupied = false :=
          can_enter_not_occupied hcond.2.2
        have hnoneg : NoneHolding g := hnone hfree
        injection hstep with hg'
        subst hg'
        refine ⟨?_, ?_, ?_⟩
        · simp [grant_occupied, grant_current]
        · intro i' j' ti tj hti htj hpi hpj
          rcases get_set_cases hget hti with ⟨rfl, rfl⟩ | ⟨hne1, hti'⟩ <;>
            rcases get_set_cases hget htj with ⟨rfl, rfl⟩ | ⟨hne2, htj'⟩
          · rfl
          · exact absurd hpj (hnoneg j' tj htj')
          · exact absurd hpi (hnoneg i' ti hti')
          · exact absurd hpi (hnoneg i' ti hti')
        · intro hocc'
          rw [grant_occupied] at hocc'
          cases hocc'
      · cases hstep
  | leaveA i =>
    simp only [step] at hstep
    cases hget : g.threads[i]? with
    | none => rw [hget] at hstep; simp at hstep
    | some t =>
      rw [hget, Option.some_bind] at hstep
      split at hstep
      · rename_i hph
        injection hstep with hg'
        subst hg'
        have hN : NoneHolding
            { monitor := leave g.monitor
              threads := ((g.threads.set i { t with phase := Phase.done }).map
                fun u => { u with runnable := true }) } := by
          intro k u hku hphase
          simp only [List.getElem?_map] at hku
          cases hw : (g.threads.set i { t with phase := Phase.done })[k]? with
          | none => rw [hw] at hku; cases hku
          | some w =>
            rw [hw] at hku
            have huw : u = { w with runnable := true } :=
              (Option.some.inj hku).symm
            subst huw
            simp only at hphase
            rcases get_set_cases hget hw with ⟨rfl, rfl⟩ | ⟨hne, hw'⟩
            · simp at hphase
            · exact hne (hone k i w t hw' hget hphase hph)
        refine ⟨by simp [leave], ?_, fun _ => hN⟩
        intro i' j' ti tj hti htj hpi hpj
        exact absurd hpi (hN i' ti hti)
      · cases hstep

theorem run_inv {g : Global} (hinv : Inv g) :
    ∀ (acts : List Action) (g' : Global), run g acts = some g' → Inv g'
  | [], g', h => by
    simp only [run, Option.some.injEq] at h
    exact h ▸ hinv
  | a :: rest, g', h => by
    simp only [run] at h
    cases hs : step g a with
    | none => rw [hs] at h; simp at h
    | some g1 =>
      rw [hs, Option.some_bind] at h
      exact run_inv (step_inv hinv hs) rest g' h

theorem init_inv {g : Global} (hinit : Init g) : Inv g := by
  obtain ⟨hm, hph⟩ := hinit
  have hidle : ∀ (k : Nat) (u : Thread), g.threads[k]? = some u →
      u.phase = Phase.idle := by
    intro k u hku
    exact hph u (List.getElem?_mem hku)
  refine ⟨by rw [hm]; rfl, ?_, ?_⟩
  · intro i j ti tj hti htj hpi hpj
    rw [hidle i ti hti] at hpi
    cases hpi
  · intro _ k u hku
    rw [hidle k u hku]
    simp

end PR

/-- C1: the occupancy invariant holds in every reachable state of the 4-tier
monitor system and is preserved by every operation: `occupied` is true iff
the occupant slot `current` is populated, and at most one request holds the
office at any instant (`PR.Inv`).  For the 2-tier monitor the same occupancy
relation is preserved by the enqueue step of `enter`, established by its
admission step, re-established by `leave`, and `snapshot` leaves the state
unchanged. -/
theorem claim_occupancy_invariant :
    (∀ g0 g : PR.Global, PR.Init g0 → PR.Reachable g0 g → PR.Inv g) ∧
    (∀ (role name : String) (s : ProfessorOffice.MState),
      ProfessorOffice.occInv s →
        ProfessorOffice.occInv (ProfessorOffice.enqueue role name s)) ∧
    (∀ (role name : String) (s : ProfessorOffice.MState),
      ProfessorOffice.occInv (ProfessorOffice.grant role name s)) ∧
    (∀ s : ProfessorOffice.MState,
      ProfessorOffice.occInv (ProfessorOffice.leave s)) ∧
    (∀ s : ProfessorOffice.MState, (ProfessorOffice.snapshot s).1 = s) := by
  refine ⟨?_, ?_, ?_, ?_, ?_⟩
  · intro g0 g hinit hreach
    obtain ⟨acts, hrun⟩ := hreach
    exact PR.run_inv (PR.init_inv hinit) acts g hrun
  · intro role name s h
    unfold ProfessorOffice.occInv at h ⊢
    rw [ProfessorOffice.po_enqueue_occupied,
      ProfessorOffice.po_enqueue_current]
    exact h
  · intro role name s
    unfold ProfessorOffice.occInv
    rw [ProfessorOffice.po_grant_occupied, ProfessorOffice.po_grant_current]
    rfl
  · intro s
    rfl
  · intro s
    rfl

theorem claim_occupancy_invariant_witness :
    (PR.Init ⟨PR.initState, [⟨"TA", "TA-01", false, PR.Phase.idle, false⟩]⟩ ∧
      PR.Reachable
        ⟨PR.initState, [⟨"TA", "TA-01", false, PR.Phase.idle, false⟩]⟩
        ⟨⟨true, some ("TA", "TA-01"), [], [], [], []⟩,
          [⟨"TA", "TA-01", false, PR.Phase.holding, true⟩]⟩ ∧
      PR.Inv
        ⟨⟨true, some ("TA", "TA-01"), [], [], [], []⟩,
          [⟨"TA", "TA-01", false, PR.Phase.holding, true⟩]⟩) ∧
    (ProfessorOffice.occInv ProfessorOffice.initState ∧
      ProfessorOffice.occInv
        (ProfessorOffice.enqueue "S" "S-01" ProfessorOffice.initState)) := by
  have hinit :
      PR.Init ⟨PR.initState,
        [⟨"TA", "TA-01", false, PR.Phase.idle, false⟩]⟩ :=
    ⟨rfl, by decide⟩
  have hreach :
      PR.Reachable
        ⟨PR.initState, [⟨"TA", "TA-01", false, PR.Phase.idle, false⟩]⟩
        ⟨⟨true, some ("TA", "TA-01"), [], [], [], []⟩,
          [⟨"TA", "TA-01", false, PR.Phase.holding, true⟩]⟩ :=
    ⟨[PR.Action.arrive 0, PR.Action.grantA 0], by decide⟩
  exact ⟨⟨hinit, hreach, claim_occupancy_invariant.1 _ _ hinit hreach⟩, rfl,
    claim_occupancy_invariant.2.1 "S" "S-01" ProfessorOffice.initState rfl⟩

theorem PR.can_enter_active {role name : String} {ret : Bool} {s : PR.MState}
    (h : PR.can_enter role name ret s = true) :
    PR.activeTier s = some (PR.tierOf role ret) := by
  cases hR : role == "Researcher" <;> cases hTA2 : role == "TA" <;>
  cases hST : role == "Student" <;> cases hret : ret <;>
  cases hocc : s.occupied <;>
  cases hRR : s.waiting_returning_researchers <;>
  cases hNR : s.waiting_new_researchers <;>
  cases hTA3 : s.waiting_tas <;>
  cases hSTQ : s.waiting_students <;>
    simp_all [PR.can_enter, PR.activeTier, PR.tierOf]

theorem ProfessorOffice.po_can_enter_active {role name : String}
    {s : ProfessorOffice.MState}
    (h : ProfessorOffice.can_enter role name s = true) :
    ProfessorOffice.activeTier s = some (ProfessorOffice.tierOf role) := by
  cases hT : role == "TA" <;> cases hocc : s.occupied <;>
  cases hTA2 : s.waiting_tas <;> cases hST : s.waiting_students <;>
    simp_all [ProfessorOffice.can_enter, ProfessorOffice.activeTier,
      ProfessorOffice.tierOf]

/-- C2: the admission predicate admits a caller iff the office is free, the
caller's tier is the active tier (first tier with a non-empty queue in
ascending rank order) and the caller's id heads that tier's queue - for the
4-tier monitor over the roles it defines (`Researcher` in either phase,
`TA`, `Student`) and for the 2-tier monitor over every role; consequently a
caller is only ever admitted when every higher-priority tier queue is empty,
in both configurations. -/
theorem claim_admission_predicate :
    (∀ (role name : String) (ret : Bool) (s : PR.MState),
      role = "Researcher" ∨ role = "TA" ∨ role = "Student" →
      PR.can_enter role name ret s =
        PR.can_enter_spec (PR.tierOf role ret) name s) ∧
    (∀ (role name : String) (s : ProfessorOffice.MState),
      ProfessorOffice.can_enter role name s =
        ProfessorOffice.can_enter_spec (ProfessorOffice.tierOf role) name s) ∧
    (∀ (role name : String) (ret : Bool) (s : PR.MState),
      PR.can_enter role name ret s = true →
      ∀ t', t' < PR.tierOf role ret → PR.queueAt s t' = []) ∧
    (∀ (role name : String) (s : ProfessorOffice.MState),
      ProfessorOffice.can_enter role name s = true →
      ∀ t', t' < ProfessorOffice.tierOf role →
        ProfessorOffice.queueAt s t' = []) := by
  refine ⟨?_, ?_, ?_, ?_⟩
  · intro role name ret s hrole
    exact PR.can_enter_eq_spec role name ret s hrole
  · intro role name s
    exact ProfessorOffice.po_can_enter_eq_spec role name s
  · intro role name ret s h t' ht'
    exact PR.activeTier_prefix_empty (PR.can_enter_active h) t' ht'
  · intro role name s h t' ht'
    exact ProfessorOffice.po_activeTier_prefix_empty
      (ProfessorOffice.po_can_enter_active h) t' ht'

theorem claim_admission_predicate_witness :
    (("TA" : String) = "Researcher" ∨ ("TA" : String) = "TA" ∨
      ("TA" : String) = "Student") ∧
    (PR.can_enter "TA" "TA-01" false ⟨false, none, [], [], ["TA-01"], []⟩ =
      PR.can_enter_spec (PR.tierOf "TA" false) "TA-01"
        ⟨false, none, [], [], ["TA-01"], []⟩) ∧
    (PR.can_enter "Student" "S-01" false
        ⟨false, none, [], [], [], ["S-01"]⟩ = true ∧
      PR.queueAt ⟨false, none, [], [], [], ["S-01"]⟩ 2 = []) ∧
    (ProfessorOffice.can_enter "Student" "S-01"
        ⟨false, none, [], ["S-01"]⟩ = true ∧
      ProfessorOffice.queueAt ⟨false, none, [], ["S-01"]⟩ 0 = []) :=
  ⟨Or.inr (Or.inl rfl),
   claim_admission_predicate.1 "TA" "TA-01" false
     ⟨false, none, [], [], ["TA-01"], []⟩ (Or.inr (Or.inl rfl)),
   ⟨by decide,
    claim_admission_predicate.2.2.1 "Student" "S-01" false
      ⟨false, none, [], [], [], ["S-01"]⟩ (by decide) 2 (by decide)⟩,
   ⟨by decide,
    claim_admission_predicate.2.2.2 "Student" "S-01"
      ⟨false, none, [], ["S-01"]⟩ (by decide) 0 (by decide)⟩⟩

theorem PR.queueAt_leave (s : PR.MState) (t : Nat) :
    PR.queueAt (PR.leave s) t = PR.queueAt s t := by
  rcases t with _ | _ | _ | _ | t <;> rfl

/-- C3 counterexample: with the office occupied by TA-01, a `leave` issued
on behalf of any caller - the method takes no caller identity and performs
no check - resets `occupied` to false and clears `current`, in both
variants, instead of failing fast and leaving the state unchanged as the
claim demands for a non-occupant caller. -/
theorem claim_leave_contract_counterexample :
    (⟨true, some ("TA", "TA-01"), [], [], [], []⟩ : PR.MState).occupied =
        true ∧
    (PR.leave ⟨true, some ("TA", "TA-01"), [], [], [], []⟩).occupied =
        false ∧
    (PR.leave ⟨true, some ("TA", "TA-01"), [], [], [], []⟩).current = none ∧
    (ProfessorOffice.leave ⟨true, some ("TA", "TA-01"), [], []⟩).occupied =
        false ∧
    (ProfessorOffice.leave ⟨true, some ("TA", "TA-01"), [], []⟩).current =
        none := by
  exact ⟨rfl, rfl, rfl, rfl, rfl⟩

/-- C3 amended: `leave` takes no caller identity and performs no occupancy
or occupant check; in every state, in both variants, it signals no error
and unconditionally sets `occupied` to false and clears `current`, leaving
every queue unchanged. -/
theorem claim_leave_contract_amended :
    (∀ s : PR.MState,
      (PR.leave s).occupied = false ∧ (PR.leave s).current = none ∧
      (PR.leave s).waiting_returning_researchers =
        s.waiting_returning_researchers ∧
      (PR.leave s).waiting_new_researchers = s.waiting_new_researchers ∧
      (PR.leave s).waiting_tas = s.waiting_tas ∧
      (PR.leave s).waiting_students = s.waiting_students) ∧
    (∀ s : ProfessorOffice.MState,
      (ProfessorOffice.leave s).occupied = false ∧
      (ProfessorOffice.leave s).current = none ∧
      (ProfessorOffice.leave s).waiting_tas = s.waiting_tas ∧
      (ProfessorOffice.leave s).waiting_students = s.waiting_students) :=
  ⟨fun _ => ⟨rfl, rfl, rfl, rfl, rfl, rfl⟩, fun _ => ⟨rfl, rfl, rfl, rfl⟩⟩

/-- C8: `snapshot` returns exactly the current monitor state - occupancy
flag, occupant and each tier queue in tier order - and leaves the monitor
state unchanged, in both variants. -/
theorem claim_snapshot :
    (∀ s : PR.MState, (PR.snapshot s).1 = s ∧
      (PR.snapshot s).2 = (s.occupied, s.current,
        s.waiting_returning_researchers, s.waiting_new_researchers,
        s.waiting_tas, s.waiting_students)) ∧
    (∀ s : ProfessorOffice.MState, (ProfessorOffice.snapshot s).1 = s ∧
      (ProfessorOffice.snapshot s).2 =
        (s.occupied, s.current, s.waiting_tas, s.waiting_students)) :=
  ⟨fun _ => ⟨rfl, rfl⟩, fun _ => ⟨rfl, rfl⟩⟩

/-- C5: the enqueue step of `enter` appends the caller's id at the tail of
its tier's queue, changing nothing else; the admission step, taken exactly
when the predicate holds, marks the office occupied, records the caller as
occupant (stored as the `(role, name)` rendering of `(tier, id)`), and pops
the caller - which was the head - off its tier's queue, leaving every
other tier queue unchanged.  Both variants. -/
theorem claim_enter_effects :
    (∀ (role name : String) (ret : Bool) (s : PR.MState),
      PR.queueAt (PR.enqueue role name ret s) (PR.tierOf role ret) =
        PR.queueAt s (PR.tierOf role ret) ++ [name] ∧
      (∀ t, t ≠ PR.tierOf role ret →
        PR.queueAt (PR.enqueue role name ret s) t = PR.queueAt s t) ∧
      (PR.enqueue role name ret s).occupied = s.occupied ∧
      (PR.enqueue role name ret s).current = s.current) ∧
    (∀ (role name : String) (ret : Bool) (s : PR.MState),
      PR.can_enter role name ret s = true →
      (PR.grant role name ret s).occupied = true ∧
      (PR.grant role name ret s).current = some (role, name) ∧
      (PR.queueAt s (PR.tierOf role ret)).head? = some name ∧
      PR.queueAt (PR.grant role name ret s) (PR.tierOf role ret) =
        (PR.queueAt s (PR.tierOf role ret)).tail ∧
      (∀ t, t ≠ PR.tierOf role ret →
        PR.queueAt (PR.grant role name ret s) t = PR.queueAt s t)) ∧
    (∀ (role name : String) (s : ProfessorOffice.MState),
      ProfessorOffice.queueAt (ProfessorOffice.enqueue role name s)
          (ProfessorOffice.tierOf role) =
        ProfessorOffice.queueAt s (ProfessorOffice.tierOf role) ++ [name] ∧
      (∀ t, t ≠ ProfessorOffice.tierOf role →
        ProfessorOffice.queueAt (ProfessorOffice.enqueue role name s) t =
          ProfessorOffice.queueAt s t) ∧
      (ProfessorOffice.enqueue role name s).occupied = s.occupied ∧
      (ProfessorOffice.enqueue role name s).current = s.current) ∧
    (∀ (role name : String) (s : ProfessorOffice.MState),
      ProfessorOffice.can_enter role name s = true →
      (ProfessorOffice.grant role name s).occupied = true ∧
      (ProfessorOffice.grant role name s).current = some (role, name) ∧
      (ProfessorOffice.queueAt s (ProfessorOffice.tierOf role)).head? =
        some name ∧
      ProfessorOffice.queueAt (ProfessorOffice.grant role name s)
          (ProfessorOffice.tierOf role) =
        (ProfessorOffice.queueAt s (ProfessorOffice.tierOf role)).tail ∧
      (∀ t, t ≠ ProfessorOffice.tierOf role →
        ProfessorOffice.queueAt (ProfessorOffice.grant role name s) t =
          ProfessorOffice.queueAt s t)) := by
  refine ⟨?_, ?_, ?_, ?_⟩
  · intro role name ret s
    refine ⟨?_, ?_, PR.enqueue_occupied role name ret s,
      PR.enqueue_current role name ret s⟩
    · rw [PR.queueAt_enqueue, if_pos rfl]
    · intro t ht
      rw [PR.queueAt_enqueue, if_neg ht]
  · intro role name ret s h
    refine ⟨PR.grant_occupied role name ret s,
      PR.grant_current role name ret s, PR.can_enter_head h, ?_, ?_⟩
    · rw [PR.queueAt_grant, if_pos rfl]
    · intro t ht
      rw [PR.queueAt_grant, if_neg ht]
  · intro role name s
    refine ⟨?_, ?_, ProfessorOffice.po_enqueue_occupied role name s,
      ProfessorOffice.po_enqueue_current role name s⟩
    · rw [ProfessorOffice.po_queueAt_enqueue, if_pos rfl]
    · intro t ht
      rw [ProfessorOffice.po_queueAt_enqueue, if_neg ht]
  · intro role name s h
    refine ⟨ProfessorOffice.po_grant_occupied role name s,
      ProfessorOffice.po_grant_current role name s,
      ProfessorOffice.po_can_enter_head h, ?_, ?_⟩
    · rw [ProfessorOffice.po_queueAt_grant, if_pos rfl]
    · intro t ht
      rw [ProfessorOffice.po_queueAt_grant, if_neg ht]

theorem claim_enter_effects_witness :
    PR.can_enter "TA" "TA-01" false
      ⟨false, none, [], [], ["TA-01"], ["S-01"]⟩ = true ∧
    (PR.grant "TA" "TA-01" false
        ⟨false, none, [], [], ["TA-01"], ["S-01"]⟩).occupied = true ∧
    (PR.grant "TA" "TA-01" false
        ⟨false, none, [], [], ["TA-01"], ["S-01"]⟩).current =
      some ("TA", "TA-01") ∧
    PR.queueAt (PR.grant "TA" "TA-01" false
        ⟨false, none, [], [], ["TA-01"], ["S-01"]⟩) 3 =
      PR.queueAt ⟨false, none, [], [], ["TA-01"], ["S-01"]⟩ 3 := by
  have h := claim_enter_effects.2.1 "TA" "TA-01" false
    ⟨false, none, [], [], ["TA-01"], ["S-01"]⟩ (by decide)
  exact ⟨by decide, h.1, h.2.1, h.2.2.2.2 3 (by decide)⟩

/-- C7: when the holder executes `leave`, the post-state has `occupied`
false and no occupant, every tier queue is exactly as before (the queues
are not modified by `leave`), and every thread is runnable again -
`notify_all` is a broadcast, not a single wake.  The 2-tier `leave`
likewise clears only the occupancy fields and leaves both queues
unchanged. -/
theorem claim_leave_wakes_all :
    (∀ (g g' : PR.Global) (i : Nat) (t : PR.Thread),
      g.threads[i]? = some t → t.phase = PR.Phase.holding →
      PR.step g (PR.Action.leaveA i) = some g' →
      g'.monitor.occupied = false ∧ g'.monitor.current = none ∧
      (∀ tq, PR.queueAt g'.monitor tq = PR.queueAt g.monitor tq) ∧
      (∀ (j : Nat) (u : PR.Thread), g'.threads[j]? = some u →
        u.runnable = true)) ∧
    (∀ s : ProfessorOffice.MState,
      (ProfessorOffice.leave s).occupied = false ∧
      (ProfessorOffice.leave s).current = none ∧
      (ProfessorOffice.leave s).waiting_tas = s.waiting_tas ∧
      (ProfessorOffice.leave s).waiting_students = s.waiting_students) := by
  refine ⟨?_, fun _ => ⟨rfl, rfl, rfl, rfl⟩⟩
  intro g g' i t hget hph hstep
  simp only [PR.step] at hstep
  rw [hget, Option.some_bind, if_pos hph] at hstep
  injection hstep with hg'
  subst hg'
  refine ⟨rfl, rfl, fun tq => PR.queueAt_leave g.monitor tq, ?_⟩
  intro j u hju
  simp only [List.getElem?_map] at hju
  cases hw : (g.threads.set i { t with phase := PR.Phase.done })[j]? with
  | none =>
    rw [hw] at hju
    simp at hju
  | some w =>
    rw [hw] at hju
    simp only [Option.map_some'] at hju
    have huw : ({ w with runnable := true } : PR.Thread) = u :=
      Option.some.inj hju
    rw [← huw]

theorem claim_leave_wakes_all_witness :
    ((⟨⟨true, some ("TA", "TA-01"), [], [], [], ["S-01"]⟩,
        [⟨"TA", "TA-01", false, PR.Phase.holding, true⟩,
          ⟨"Student", "S-01", false, PR.Phase.waiting, false⟩]⟩ :
        PR.Global).threads[0]? =
      some ⟨"TA", "TA-01", false, PR.Phase.holding, true⟩) ∧
    PR.step
      ⟨⟨true, some ("TA", "TA-01"), [], [], [], ["S-01"]⟩,
        [⟨"TA", "TA-01", false, PR.Phase.holding, true⟩,
          ⟨"Student", "S-01", false, PR.Phase.waiting, false⟩]⟩
      (PR.Action.leaveA 0) =
      some ⟨⟨false, none, [], [], [], ["S-01"]⟩,
        [⟨"TA", "TA-01", false, PR.Phase.done, true⟩,
          ⟨"Student", "S-01", false, PR.Phase.waiting, true⟩]⟩ ∧
    (⟨⟨false, none, [], [], [], ["S-01"]⟩,
        [⟨"TA", "TA-01", false, PR.Phase.done, true⟩,
          ⟨"Student", "S-01", false, PR.Phase.waiting, true⟩]⟩ :
      PR.Global).monitor.occupied = false ∧
    PR.queueAt
      (⟨⟨false, none, [], [], [], ["S-01"]⟩,
        [⟨"TA", "TA-01", false, PR.Phase.done, true⟩,
          ⟨"Student", "S-01", false, PR.Phase.waiting, true⟩]⟩ :
        PR.Global).monitor 3 = ["S-01"] := by
  have h := claim_leave_wakes_all.1
    ⟨⟨true, some ("TA", "TA-01"), [], [], [], ["S-01"]⟩,
      [⟨"TA", "TA-01", false, PR.Phase.holding, true⟩,
        ⟨"Student", "S-01", false, PR.Phase.waiting, false⟩]⟩
    ⟨⟨false, none, [], [], [], ["S-01"]⟩,
      [⟨"TA", "TA-01", false, PR.Phase.done, true⟩,
        ⟨"Student", "S-01", false, PR.Phase.waiting, true⟩]⟩
    0 ⟨"TA", "TA-01", false, PR.Phase.holding, true⟩ (by decide) rfl
    (by decide)
  exact ⟨by decide, by decide, h.1, by decide⟩

theorem PR.getElem?_set_of_get {l : List PR.Thread} {i : Nat}
    {t : PR.Thread} (a : PR.Thread) (h : l[i]? = some t) :
    (l.set i a)[i]? = some a := by
  obtain ⟨hlen, -⟩ := List.getElem?_eq_some_iff.mp h
  rw [List.getElem?_set, if_pos rfl, if_pos hlen]

theorem PR.can_enter_unknown_role {role : String} (h1 : role ≠ "Researcher")
    (h2 : role ≠ "TA") (h3 : role ≠ "Student") (name : String) (ret : Bool)
    (s : PR.MState) : PR.can_enter role name ret s = false := by
  have b1 : (role == "Researcher") = false := by simp [h1]
  have b2 : (role == "TA") = false := by simp [h2]
  have b3 : (role == "Student") = false := by simp [h3]
  unfold PR.can_enter
  split
  · rfl
  · split
    · simp [b1]
    · split
      · simp [b1]
      · split
        · simp [b2]
        · split
          · simp [b3]
          · rfl

theorem PR.enqueue_unknown_role {role : String} (h1 : role ≠ "Researcher")
    (h2 : role ≠ "TA") (name : String) (ret : Bool) (s : PR.MState) :
    PR.enqueue role name ret s =
      { s with waiting_students := s.waiting_students ++ [name] } := by
  have b1 : ¬ ((role == "Researcher") = true) := by simp [h1]
  have b2 : ¬ ((role == "TA") = true) := by simp [h2]
  unfold PR.enqueue
  rw [if_neg b1, if_neg b2]

theorem PR.can_enter_blocked_by_head {s : PR.MState} {hd : String}
    (hhead : s.waiting_students.head? = some hd) (role2 name2 : String)
    (ret2 : Bool) (hr : role2 ≠ "Researcher") (ht : role2 ≠ "TA")
    (hn : name2 ≠ hd) : PR.can_enter role2 name2 ret2 s = false := by
  have b1 : (role2 == "Researcher") = false := by simp [hr]
  have b2 : (role2 == "TA") = false := by simp [ht]
  have b3 : (s.waiting_students.head? == some name2) = false := by
    rw [hhead]
    simp [Ne.symm hn]
  unfold PR.can_enter
  split
  · rfl
  · split
    · simp [b1]
    · split
      · simp [b1]
      · split
        · simp [b2]
        · split
          · simp [b3]
          · rfl

theorem PR.step_role_phase {role : String}
    (hrole : ∀ (name : String) (ret : Bool) (s : PR.MState),
      PR.can_enter role name ret s = false)
    {g g' : PR.Global} {a : PR.Action} {i : Nat} {th : PR.Thread}
    (hstep : PR.step g a = some g') (hget : g.threads[i]? = some th)
    (hr : th.role = role) (hnh : th.phase ≠ PR.Phase.holding) :
    ∃ th', g'.threads[i]? = some th' ∧ th'.role = role ∧
      th'.phase ≠ PR.Phase.holding := by
  cases a with
  | arrive j =>
    simp only [PR.step] at hstep
    cases hgj : g.threads[j]? with
    | none => rw [hgj] at hstep; simp at hstep
    | some tj =>
      rw [hgj, Option.some_bind] at hstep
      split at hstep
      · injection hstep with hg'
        subst hg'
        by_cases hij : j = i
        · subst hij
          have htj : tj = th := Option.some.inj (hgj.symm.trans hget)
          subst htj
          exact ⟨_, PR.getElem?_set_of_get _ hget, hr, by simp⟩
        · exact ⟨th, by rw [List.getElem?_set_ne hij]; exact hget, hr, hnh⟩
      · simp at hstep
  | blockCv j =>
    simp only [PR.step] at hstep
    cases hgj : g.threads[j]? with
    | none => rw [hgj] at hstep; simp at hstep
    | some tj =>
      rw [hgj, Option.some_bind] at hstep
      split at hstep
      · injection hstep with hg'
        subst hg'
        by_cases hij : j = i
        · subst hij
          have htj : tj = th := Option.some.inj (hgj.symm.trans hget)
          subst htj
          exact ⟨_, PR.getElem?_set_of_get _ hget, hr, hnh⟩
        · exact ⟨th, by rw [List.getElem?_set_ne hij]; exact hget, hr, hnh⟩
      · simp at hstep
  | grantA j =>
    simp only [PR.step] at hstep
    cases hgj : g.threads[j]? with
    | none => rw [hgj] at hstep; simp at hstep
    | some tj =>
      rw [hgj, Option.some_bind] at hstep
      split at hstep
      · rename_i hcond
        injection hstep with hg'
        subst hg'
        by_cases hij : j = i
        · subst hij
          have htj : tj = th := Option.some.inj (hgj.symm.trans hget)
          subst htj
          have hce := hcond.2.2
          rw [hr, hrole] at hce
          cases hce
        · exact ⟨th, by rw [List.getElem?_set_ne hij]; exact hget, hr, hnh⟩
      · simp at hstep
  | leaveA j =>
    simp only [PR.step] at hstep
    cases hgj : g.threads[j]? with
    | none => rw [hgj] at hstep; simp at hstep
    | some tj =>
      rw [hgj, Option.some_bind] at hstep
      split at hstep
      · rename_i hcond
        injection hstep with hg'
        subst hg'
        by_cases hij : j = i
        · subst hij
          have htj : tj = th := Option.some.inj (hgj.symm.trans hget)
          subst htj
          exact absurd hcond hnh
        · refine ⟨{ th with runnable := true }, ?_, hr, hnh⟩
          rw [List.getElem?_map, List.getElem?_set_ne hij, hget,
            Option.map_some']
      · simp at hstep

theorem PR.run_role_phase {role : String}
    (hrole : ∀ (name : String) (ret : Bool) (s : PR.MState),
      PR.can_enter role name ret s = false) :
    ∀ (acts : List PR.Action) (g g' : PR.Global) (i : Nat) (th : PR.Thread),
      PR.run g acts = some g' → g.threads[i]? = some th → th.role = role →
      th.phase ≠ PR.Phase.holding →
      ∃ th', g'.threads[i]? = some th' ∧ th'.role = role ∧
        th'.phase ≠ PR.Phase.holding
  | [], g, g', i, th, h, hget, hr, hnh => by
    simp only [PR.run, Option.some.injEq] at h
    exact h ▸ ⟨th, hget, hr, hnh⟩
  | a :: rest, g, g', i, th, h, hget, hr, hnh => by
    simp only [PR.run] at h
    cases hs : PR.step g a with
    | none => rw [hs] at h; simp at h
    | some g1 =>
      rw [hs, Option.some_bind] at h
      obtain ⟨th1, hget1, hr1, hnh1⟩ :=
        PR.step_role_phase hrole hs hget hr hnh
      exact PR.run_role_phase hrole rest g1 g' i th1 h hget1 hr1 hnh1

/-- C10: in the 4-tier variant, a caller whose role is none of `Researcher`,
`TA`, `Student` is appended to the student queue by `enter`, yet the
admission predicate is false for it in every state (the student branch
demands `role == "Student"`), so along any run such a thread never reaches
the holding phase; and while its name heads the student queue, no
student-tier caller with a different name is admissible either. -/
theorem claim_unknown_role_starves (role : String)
    (h1 : role ≠ "Researcher") (h2 : role ≠ "TA") (h3 : role ≠ "Student") :
    (∀ (name : String) (ret : Bool) (s : PR.MState),
      PR.enqueue role name ret s =
        { s with waiting_students := s.waiting_students ++ [name] }) ∧
    (∀ (name : String) (ret : Bool) (s : PR.MState),
      PR.can_enter role name ret s = false) ∧
    (∀ (g g' : PR.Global) (acts : List PR.Action) (i : Nat)
        (th th' : PR.Thread),
      PR.run g acts = some g' → g.threads[i]? = some th →
      th.role = role → th.phase ≠ PR.Phase.holding →
      g'.threads[i]? = some th' → th'.phase ≠ PR.Phase.holding) ∧
    (∀ (s : PR.MState) (hd : String),
      s.waiting_students.head? = some hd →
      ∀ (role2 name2 : String) (ret2 : Bool), role2 ≠ "Researcher" →
        role2 ≠ "TA" → name2 ≠ hd →
        PR.can_enter role2 name2 ret2 s = false) := by
  refine ⟨PR.enqueue_unknown_role h1 h2, PR.can_enter_unknown_role h1 h2 h3,
    ?_, ?_⟩
  · intro g g' acts i th th' hrun hget hr hnh hget'
    obtain ⟨th'', hth'', -, hnh''⟩ :=
      PR.run_role_phase (fun name ret s =>
        hr ▸ PR.can_enter_unknown_role h1 h2 h3 name ret s)
        acts g g' i th hrun hget hr hnh
    have : th'' = th' := Option.some.inj (hth''.symm.trans hget')
    exact this ▸ hnh''
  · intro s hd hhead role2 name2 ret2 hr ht hn
    exact PR.can_enter_blocked_by_head hhead role2 name2 ret2 hr ht hn

theorem claim_unknown_role_starves_witness :
    ("Janitor" : String) ≠ "Researcher" ∧ ("Janitor" : String) ≠ "TA" ∧
    ("Janitor" : String) ≠ "Student" ∧
    PR.enqueue "Janitor" "J-01" false PR.initState =
      { PR.initState with waiting_students := ["J-01"] } ∧
    PR.can_enter "Janitor" "J-01" false
      ⟨false, none, [], [], [], ["J-01"]⟩ = false ∧
    PR.can_enter "Student" "S-01" false
      ⟨false, none, [], [], [], ["J-01", "S-01"]⟩ = false := by
  have h := claim_unknown_role_starves "Janitor" (by decide) (by decide)
    (by decide)
  refine ⟨by decide, by decide, by decide, ?_, ?_, ?_⟩
  · exact h.1 "J-01" false PR.initState
  · exact h.2.1 "J-01" false ⟨false, none, [], [], [], ["J-01"]⟩
  · exact h.2.2.2 ⟨false, none, [], [], [], ["J-01", "S-01"]⟩ "J-01" rfl
      "Student" "S-01" false (by decide) (by decide) (by decide)

theorem PR.returning_blocks {s : PR.MState}
    (hRR : s.waiting_returning_researchers ≠ []) (role name : String)
    (ret : Bool) (h : ret = false ∨ role ≠ "Researcher") :
    PR.can_enter role name ret s = false := by
  cases hq : s.waiting_returning_researchers with
  | nil => exact absurd hq hRR
  | cons a l =>
    unfold PR.can_enter
    rw [hq]
    cases hocc : s.occupied <;> rcases h with rfl | h
    · simp [hocc]
    · simp [hocc, h]
    · simp [hocc]
    · simp [hocc]

/-- Scenario 2 start state: R-01 queued returning, R-02 queued new, TA-01
and S-01 queued, office free, all four visitor threads in the wait loop. -/
def PR.scenarioStart : PR.Global :=
  ⟨⟨false, none, ["R-01"], ["R-02"], ["TA-01"], ["S-01"]⟩,
    [⟨"Researcher", "R-01", true, PR.Phase.waiting, true⟩,
     ⟨"Researcher", "R-02", false, PR.Phase.waiting, true⟩,
     ⟨"TA", "TA-01", false, PR.Phase.waiting, true⟩,
     ⟨"Student", "S-01", false, PR.Phase.waiting, true⟩]⟩

/-- Scenario 2 after R-01 has been admitted and has left. -/
def PR.scenarioAfterR01 : PR.Global :=
  ⟨⟨false, none, [], ["R-02"], ["TA-01"], ["S-01"]⟩,
    [⟨"Researcher", "R-01", true, PR.Phase.done, true⟩,
     ⟨"Researcher", "R-02", false, PR.Phase.waiting, true⟩,
     ⟨"TA", "TA-01", false, PR.Phase.waiting, true⟩,
     ⟨"Student", "S-01", false, PR.Phase.waiting, true⟩]⟩

/-- Scenario 2 after R-01 and R-02 have been admitted and have left. -/
def PR.scenarioAfterR02 : PR.Global :=
  ⟨⟨false, none, [], [], ["TA-01"], ["S-01"]⟩,
    [⟨"Researcher", "R-01", true, PR.Phase.done, true⟩,
     ⟨"Researcher", "R-02", false, PR.Phase.done, true⟩,
     ⟨"TA", "TA-01", false, PR.Phase.waiting, true⟩,
     ⟨"Student", "S-01", false, PR.Phase.waiting, true⟩]⟩

/-- Scenario 2 after R-01, R-02 and TA-01 have been admitted and have
left. -/
def PR.scenarioAfterTA : PR.Global :=
  ⟨⟨false, none, [], [], [], ["S-01"]⟩,
    [⟨"Researcher", "R-01", true, PR.Phase.done, true⟩,
     ⟨"Researcher", "R-02", false, PR.Phase.done, true⟩,
     ⟨"TA", "TA-01", false, PR.Phase.done, true⟩,
     ⟨"Student", "S-01", false, PR.Phase.waiting, true⟩]⟩

/-- Scenario 2 final state: everyone has been admitted and has left. -/
def PR.scenarioEnd : PR.Global :=
  ⟨⟨false, none, [], [], [], []⟩,
    [⟨"Researcher", "R-01", true, PR.Phase.done, true⟩,
     ⟨"Researcher", "R-02", false, PR.Phase.done, true⟩,
     ⟨"TA", "TA-01", false, PR.Phase.done, true⟩,
     ⟨"Student", "S-01", false, PR.Phase.done, true⟩]⟩

/-- C6: whenever the returning-researcher queue is non-empty, no caller
that is not a returning researcher is admissible, regardless of when it
was enqueued; and in the scenario with R-01 queued returning, R-02 queued
new, TA-01 and S-01 queued (all enqueued before R-01 in wall-clock time),
the only executable admission order is R-01, then R-02, then TA-01, then
S-01: each prefix executes, and every out-of-order admission step is
disabled. -/
theorem claim_returning_priority :
    (∀ (s : PR.MState) (role name : String) (ret : Bool),
      s.waiting_returning_researchers ≠ [] →
      ret = false ∨ role ≠ "Researcher" →
      PR.can_enter role name ret s = false) ∧
    PR.run PR.scenarioStart [PR.Action.grantA 0, PR.Action.leaveA 0] =
      some PR.scenarioAfterR01 ∧
    PR.run PR.scenarioAfterR01 [PR.Action.grantA 1, PR.Action.leaveA 1] =
      some PR.scenarioAfterR02 ∧
    PR.run PR.scenarioAfterR02 [PR.Action.grantA 2, PR.Action.leaveA 2] =
      some PR.scenarioAfterTA ∧
    PR.run PR.scenarioAfterTA [PR.Action.grantA 3, PR.Action.leaveA 3] =
      some PR.scenarioEnd ∧
    (PR.step PR.scenarioStart (PR.Action.grantA 1) = none ∧
      PR.step PR.scenarioStart (PR.Action.grantA 2) = none ∧
      PR.step PR.scenarioStart (PR.Action.grantA 3) = none) ∧
    (PR.step PR.scenarioAfterR01 (PR.Action.grantA 2) = none ∧
      PR.step PR.scenarioAfterR01 (PR.Action.grantA 3) = none) ∧
    PR.step PR.scenarioAfterR02 (PR.Action.grantA 3) = none := by
  refine ⟨?_, by decide, by decide, by decide, by decide,
    ⟨by decide, by decide, by decide⟩, ⟨by decide, by decide⟩, by decide⟩
  intro s role name ret hRR h
  exact PR.returning_blocks hRR role name ret h

theorem claim_returning_priority_witness :
    (PR.scenarioStart.monitor.waiting_returning_researchers ≠ [] ∧
      (false = false ∨ ("TA" : String) ≠ "Researcher")) ∧
    PR.can_enter "TA" "TA-01" false PR.scenarioStart.monitor = false := by
  refine ⟨⟨by decide, Or.inl rfl⟩, ?_⟩
  exact claim_returning_priority.1 PR.scenarioStart.monitor "TA" "TA-01"
    false (by decide) (Or.inl rfl)

/-- Every occurrence of `y` in `l` lies strictly after some occurrence of
`x`, and `y` does occur.  For the unique ids the monitor is used with this
says exactly: `x` is queued ahead of `y`. -/
def PR.EnqueuedBefore (x y : String) (l : List String) : Prop :=
  y ∈ l ∧ ∀ j : Nat, l[j]? = some y → ∃ i : Nat, i < j ∧ l[i]? = some x

/-- Action `a`, fired from global state `g`, is the admission of the
request named `x` from tier `t`. -/
def PR.GrantsAt (g : PR.Global) (a : PR.Action) (t : Nat) (x : String) :
    Prop :=
  ∃ (i : Nat) (th : PR.Thread), a = PR.Action.grantA i ∧
    g.threads[i]? = some th ∧ th.name = x ∧
    PR.tierOf th.role th.returning = t

/-- No action of `acts`, fired from the state it is reached in, admits `x`
from tier `t`. -/
def PR.AvoidsGrant (g : PR.Global) (acts : List PR.Action) (t : Nat)
    (x : String) : Prop :=
  ∀ (pre : List PR.Action) (a : PR.Action) (post : List PR.Action)
    (gmid : PR.Global), acts = pre ++ a :: post →
    PR.run g pre = some gmid → ¬ PR.GrantsAt gmid a t x

theorem PR.enqueuedBefore_append {x y : String} {l : List String}
    (h : PR.EnqueuedBefore x y l) (n : String) :
    PR.EnqueuedBefore x y (l ++ [n]) := by
  obtain ⟨hmem, hall⟩ := h
  refine ⟨List.mem_append_left _ hmem, ?_⟩
  intro j hj
  by_cases hjl : j < l.length
  · rw [List.getElem?_append_left hjl] at hj
    obtain ⟨i, hij, hix⟩ := hall j hj
    exact ⟨i, hij, by
      rw [List.getElem?_append_left (hij.trans hjl)]; exact hix⟩
  · obtain ⟨jy, hjy⟩ := List.mem_iff_getElem?.mp hmem
    obtain ⟨i, hij, hix⟩ := hall jy hjy
    have hil : i < l.length := (List.getElem?_eq_some_iff.mp hix).1
    exact ⟨i, lt_of_lt_of_le hil (le_of_not_lt hjl),
      by rw [List.getElem?_append_left hil]; exact hix⟩

theorem PR.enqueuedBefore_head_ne {x y : String} {l : List String}
    (h : PR.EnqueuedBefore x y l) : l.head? ≠ some y := by
  intro hhead
  rw [List.head?_eq_getElem?] at hhead
  obtain ⟨i, hi, -⟩ := h.2 0 hhead
  omega

theorem PR.enqueuedBefore_tail {x y : String} {l : List String}
    (h : PR.EnqueuedBefore x y l) (hx : l.head? ≠ some x) :
    PR.EnqueuedBefore x y l.tail := by
  cases l with
  | nil => exact absurd h.1 (List.not_mem_nil y)
  | cons a l =>
    obtain ⟨hmem, hall⟩ := h
    have hay : a ≠ y := by
      rintro rfl
      obtain ⟨i, hi, -⟩ := hall 0 (by simp)
      omega
    have hax : a ≠ x := by
      rintro rfl
      exact hx (by simp)
    refine ⟨?_, ?_⟩
    · rcases List.mem_cons.mp hmem with rfl | hy
      · exact absurd rfl hay
      · exact hy
    · intro j hj
      obtain ⟨i, hij, hix⟩ := hall (j + 1) (by simpa using hj)
      cases i with
      | zero =>
        simp only [List.getElem?_cons_zero, Option.some.injEq] at hix
        exact absurd hix hax
      | succ i =>
        exact ⟨i, by omega, by simpa using hix⟩

theorem PR.step_enqueuedBefore {g g' : PR.Global} {a : PR.Action} {t : Nat}
    {x y : String} (hstep : PR.step g a = some g')
    (hEB : PR.EnqueuedBefore x y (PR.queueAt g.monitor t))
    (hnx : ¬ PR.GrantsAt g a t x) :
    PR.EnqueuedBefore x y (PR.queueAt g'.monitor t) := by
  cases a with
  | arrive j =>
    simp only [PR.step] at hstep
    cases hgj : g.threads[j]? with
    | none => rw [hgj] at hstep; simp at hstep
    | some tj =>
      rw [hgj, Option.some_bind] at hstep
      split at hstep
      · injection hstep with hg'
        subst hg'
        by_cases ht : t = PR.tierOf tj.role tj.returning
        · rw [PR.queueAt_enqueue, if_pos ht]
          exact PR.enqueuedBefore_append hEB _
        · rw [PR.queueAt_enqueue, if_neg ht]
          exact hEB
      · simp at hstep
  | blockCv j =>
    simp only [PR.step] at hstep
    cases hgj : g.threads[j]? with
    | none => rw [hgj] at hstep; simp at hstep
    | some tj =>
      rw [hgj, Option.some_bind] at hstep
      split at hstep
      · injection hstep with hg'
        subst hg'
        exact hEB
      · simp at hstep
  | grantA j =>
    simp only [PR.step] at hstep
    cases hgj : g.threads[j]? with
    | none => rw [hgj] at hstep; simp at hstep
    | some tj =>
      rw [hgj, Option.some_bind] at hstep
      split at hstep
      · rename_i hcond
        injection hstep with hg'
        subst hg'
        by_cases ht : t = PR.tierOf tj.role tj.returning
        · rw [PR.queueAt_grant, if_pos ht]
          apply PR.enqueuedBefore_tail hEB
          intro hx
          apply hnx
          refine ⟨j, tj, rfl, hgj, ?_, ht.symm⟩
          have hh := PR.can_enter_head hcond.2.2
          rw [← ht] at hh
          rw [hh] at hx
          exact Option.some.inj hx
        · rw [PR.queueAt_grant, if_neg ht]
          exact hEB
      · simp at hstep
  | leaveA j =>
    simp only [PR.step] at hstep
    cases hgj : g.threads[j]? with
    | none => rw [hgj] at hstep; simp at hstep
    | some tj =>
      rw [hgj, Option.some_bind] at hstep
      split at hstep
      · injection hstep with hg'
        subst hg'
        rw [PR.queueAt_leave]
        exact hEB
      · simp at hstep

theorem PR.run_enqueuedBefore :
    ∀ (acts : List PR.Action) (g g' : PR.Global) (t : Nat) (x y : String),
      PR.run g acts = some g' →
      PR.EnqueuedBefore x y (PR.queueAt g.monitor t) →
      PR.AvoidsGrant g acts t x →
      PR.EnqueuedBefore x y (PR.queueAt g'.monitor t)
  | [], g, g', t, x, y, h, hEB, _ => by
    simp only [PR.run, Option.some.injEq] at h
    exact h ▸ hEB
  | a :: rest, g, g', t, x, y, h, hEB, hav => by
    simp only [PR.run] at h
    cases hs : PR.step g a with
    | none => rw [hs] at h; simp at h
    | some g1 =>
      rw [hs, Option.some_bind] at h
      have hnx : ¬ PR.GrantsAt g a t x := hav [] a rest g rfl rfl
      have hEB1 := PR.step_enqueuedBefore hs hEB hnx
      refine PR.run_enqueuedBefore rest g1 g' t x y h hEB1 ?_
      intro pre a' post gmid hdec hrunpre
      refine hav (a :: pre) a' post gmid (by rw [hdec]; rfl) ?_
      simp only [PR.run]
      rw [hs, Option.some_bind]
      exact hrunpre

theorem PR.run_append_middle :
    ∀ (pre : List PR.Action) (g g' : PR.Global) (a : PR.Action)
      (post : List PR.Action),
      PR.run g (pre ++ a :: post) = some g' →
      ∃ gmid gnext, PR.run g pre = some gmid ∧
        PR.step gmid a = some gnext ∧ PR.run gnext post = some g'
  | [], g, g', a, post, h => by
    simp only [List.nil_append, PR.run] at h
    cases hs : PR.step g a with
    | none => rw [hs] at h; simp at h
    | some g1 =>
      rw [hs, Option.some_bind] at h
      exact ⟨g, g1, rfl, hs, h⟩
  | b :: pre, g, g', a, post, h => by
    simp only [List.cons_append, PR.run] at h
    cases hs : PR.step g b with
    | none => rw [hs] at h; simp at h
    | some g1 =>
      rw [hs, Option.some_bind] at h
      obtain ⟨gmid, gnext, h1, h2, h3⟩ :=
        PR.run_append_middle pre g1 g' a post h
      refine ⟨gmid, gnext, ?_, h2, h3⟩
      simp only [PR.run]
      rw [hs, Option.some_bind]
      exact h1

theorem PR.fifo_grant_order {g g' gmid : PR.Global}
    {acts pre post : List PR.Action} {a : PR.Action} {t : Nat}
    {x y : String} (hrun : PR.run g acts = some g')
    (hEB : PR.EnqueuedBefore x y (PR.queueAt g.monitor t))
    (hdec : acts = pre ++ a :: post) (hpre : PR.run g pre = some gmid)
    (hgy : PR.GrantsAt gmid a t y) :
    ∃ (pre1 : List PR.Action) (a1 : PR.Action) (post1 : List PR.Action)
      (gmid1 : PR.Global), pre = pre1 ++ a1 :: post1 ∧
      PR.run g pre1 = some gmid1 ∧ PR.GrantsAt gmid1 a1 t x := by
  by_cases hav : PR.AvoidsGrant g pre t x
  · exfalso
    have hEBmid := PR.run_enqueuedBefore pre g gmid t x y hpre hEB hav
    obtain ⟨j, tj, rfl, hgetj, hname, htier⟩ := hgy
    subst hdec
    obtain ⟨gmid', gnext, hpre', hstep', -⟩ :=
      PR.run_append_middle pre g g' _ post hrun
    have hmid : gmid' = gmid := by
      rw [hpre'] at hpre
      exact Option.some.inj hpre
    subst hmid
    simp only [PR.step] at hstep'
    rw [hgetj, Option.some_bind] at hstep'
    split at hstep'
    · rename_i hcond
      have hh := PR.can_enter_head hcond.2.2
      rw [htier, hname] at hh
      exact PR.enqueuedBefore_head_ne hEBmid hh
    · simp at hstep'
  · unfold PR.AvoidsGrant at hav
    push_neg at hav
    obtain ⟨pre1, a1, post1, gmid1, h1, h2, h3⟩ := hav
    exact ⟨pre1, a1, post1, gmid1, h1, h2, h3⟩

/-- FIFO witness scenario: two TAs queued in order, office free. -/
def PR.fifoStart : PR.Global :=
  ⟨⟨false, none, [], [], ["TA-01", "TA-02"], []⟩,
    [⟨"TA", "TA-01", false, PR.Phase.waiting, true⟩,
     ⟨"TA", "TA-02", false, PR.Phase.waiting, true⟩]⟩

/-- FIFO witness scenario after TA-01 was admitted and left. -/
def PR.fifoMid : PR.Global :=
  ⟨⟨false, none, [], [], ["TA-02"], []⟩,
    [⟨"TA", "TA-01", false, PR.Phase.done, true⟩,
     ⟨"TA", "TA-02", false, PR.Phase.waiting, true⟩]⟩

/-- FIFO witness scenario final state: TA-02 holds the office. -/
def PR.fifoEnd : PR.Global :=
  ⟨⟨true, some ("TA", "TA-02"), [], [], [], []⟩,
    [⟨"TA", "TA-01", false, PR.Phase.done, true⟩,
     ⟨"TA", "TA-02", false, PR.Phase.holding, true⟩]⟩

/-- C4: `enter` appends at the tail of the caller's tier queue and the
admission step removes exactly the head, in both variants; consequently,
along any execution of the 4-tier system, if `x` is queued ahead of `y` in
tier `t`'s queue then any admission of `y` from tier `t` is strictly
preceded by an admission of `x` from tier `t` - intra-tier admission is
FIFO by enqueue order. -/
theorem claim_intra_tier_fifo :
    (∀ (role name : String) (ret : Bool) (s : PR.MState),
      PR.queueAt (PR.enqueue role name ret s) (PR.tierOf role ret) =
        PR.queueAt s (PR.tierOf role ret) ++ [name]) ∧
    (∀ (role name : String) (ret : Bool) (s : PR.MState),
      PR.can_enter role name ret s = true →
      (PR.queueAt s (PR.tierOf role ret)).head? = some name ∧
      PR.queueAt (PR.grant role name ret s) (PR.tierOf role ret) =
        (PR.queueAt s (PR.tierOf role ret)).tail) ∧
    (∀ (role name : String) (s : ProfessorOffice.MState),
      ProfessorOffice.queueAt (ProfessorOffice.enqueue role name s)
          (ProfessorOffice.tierOf role) =
        ProfessorOffice.queueAt s (ProfessorOffice.tierOf role) ++ [name]) ∧
    (∀ (role name : String) (s : ProfessorOffice.MState),
      ProfessorOffice.can_enter role name s = true →
      (ProfessorOffice.queueAt s (ProfessorOffice.tierOf role)).head? =
        some name ∧
      ProfessorOffice.queueAt (ProfessorOffice.grant role name s)
          (ProfessorOffice.tierOf role) =
        (ProfessorOffice.queueAt s (ProfessorOffice.tierOf role)).tail) ∧
    (∀ (g g' gmid : PR.Global) (acts pre post : List PR.Action)
        (a : PR.Action) (t : Nat) (x y : String),
      PR.run g acts = some g' →
      PR.EnqueuedBefore x y (PR.queueAt g.monitor t) →
      acts = pre ++ a :: post →
      PR.run g pre = some gmid →
      PR.GrantsAt gmid a t y →
      ∃ (pre1 : List PR.Action) (a1 : PR.Action) (post1 : List PR.Action)
        (gmid1 : PR.Global), pre = pre1 ++ a1 :: post1 ∧
        PR.run g pre1 = some gmid1 ∧ PR.GrantsAt gmid1 a1 t x) := by
  refine ⟨?_, ?_, ?_, ?_, ?_⟩
  · intro role name ret s
    rw [PR.queueAt_enqueue, if_pos rfl]
  · intro role name ret s h
    exact ⟨PR.can_enter_head h, by rw [PR.queueAt_grant, if_pos rfl]⟩
  · intro role name s
    rw [ProfessorOffice.po_queueAt_enqueue, if_pos rfl]
  · intro role name s h
    exact ⟨ProfessorOffice.po_can_enter_head h,
      by rw [ProfessorOffice.po_queueAt_grant, if_pos rfl]⟩
  · intro g g' gmid acts pre post a t x y hrun hEB hdec hpre hgy
    exact PR.fifo_grant_order hrun hEB hdec hpre hgy

theorem claim_intra_tier_fifo_witness :
    (PR.run PR.fifoStart
        [PR.Action.grantA 0, PR.Action.leaveA 0, PR.Action.grantA 1] =
      some PR.fifoEnd ∧
      PR.EnqueuedBefore "TA-01" "TA-02"
        (PR.queueAt PR.fifoStart.monitor 2) ∧
      PR.run PR.fifoStart [PR.Action.grantA 0, PR.Action.leaveA 0] =
        some PR.fifoMid ∧
      PR.GrantsAt PR.fifoMid (PR.Action.grantA 1) 2 "TA-02") ∧
    (∃ (pre1 : List PR.Action) (a1 : PR.Action) (post1 : List PR.Action)
      (gmid1 : PR.Global),
      [PR.Action.grantA 0, PR.Action.leaveA 0] = pre1 ++ a1 :: post1 ∧
      PR.run PR.fifoStart pre1 = some gmid1 ∧
      PR.GrantsAt gmid1 a1 2 "TA-01") := by
  have hEB : PR.EnqueuedBefore "TA-01" "TA-02"
      (PR.queueAt PR.fifoStart.monitor 2) := by
    refine ⟨by decide, ?_⟩
    intro j hj
    rcases j with _ | _ | j
    · exact absurd (Option.some.inj hj) (by decide)
    · exact ⟨0, by omega, rfl⟩
    · simp [PR.fifoStart, PR.queueAt] at hj
  have hgy : PR.GrantsAt PR.fifoMid (PR.Action.grantA 1) 2 "TA-02" :=
    ⟨1, ⟨"TA", "TA-02", false, PR.Phase.waiting, true⟩, rfl, by decide,
      rfl, by decide⟩
  refine ⟨⟨by decide, hEB, by decide, hgy⟩, ?_⟩
  exact claim_intra_tier_fifo.2.2.2.2 PR.fifoStart PR.fifoEnd PR.fifoMid
    [PR.Action.grantA 0, PR.Action.leaveA 0, PR.Action.grantA 1]
    [PR.Action.grantA 0, PR.Action.leaveA 0] [] (PR.Action.grantA 1) 2
    "TA-01" "TA-02" (by decide) hEB rfl (by decide) hgy

theorem PR.leaveA_all_runnable {g g' : PR.Global} {i : Nat}
    (hstep : PR.step g (PR.Action.leaveA i) = some g') :
    ∀ (j : Nat) (u : PR.Thread), g'.threads[j]? = some u →
      u.runnable = true := by
  simp only [PR.step] at hstep
  cases hgi : g.threads[i]? with
  | none => rw [hgi] at hstep; simp at hstep
  | some t =>
    rw [hgi, Option.some_bind] at hstep
    split at hstep
    · injection hstep with hg'
      subst hg'
      intro j u hju
      simp only [List.getElem?_map] at hju
      cases hw : (g.threads.set i { t with phase := PR.Phase.done })[j]? with
      | none => rw [hw] at hju; simp at hju
      | some w =>
        rw [hw] at hju
        simp only [Option.map_some'] at hju
        have huw : ({ w with runnable := true } : PR.Thread) = u :=
          Option.some.inj hju
        rw [← huw]
    · simp at hstep

theorem PR.step_keeps_waiting {g g' : PR.Global} {a : PR.Action} {i : Nat}
    {th : PR.Thread} (hget : g.threads[i]? = some th)
    (hw : th.phase = PR.Phase.waiting) (hr : th.runnable = true)
    (hce : PR.can_enter th.role th.name th.returning g.monitor = true)
    (ha : a ≠ PR.Action.grantA i) (hstep : PR.step g a = some g') :
    ∃ th', g'.threads[i]? = some th' ∧ th'.role = th.role ∧
      th'.name = th.name ∧ th'.returning = th.returning ∧
      th'.phase = PR.Phase.waiting ∧ th'.runnable = true := by
  cases a with
  | arrive j =>
    simp only [PR.step] at hstep
    cases hgj : g.threads[j]? with
    | none => rw [hgj] at hstep; simp at hstep
    | some tj =>
      rw [hgj, Option.some_bind] at hstep
      split at hstep
      · rename_i hcond
        injection hstep with hg'
        subst hg'
        by_cases hij : j = i
        · subst hij
          have htj : tj = th := Option.some.inj (hgj.symm.trans hget)
          subst htj
          rw [hw] at hcond
          simp at hcond
        · exact ⟨th, by rw [List.getElem?_set_ne hij]; exact hget, rfl, rfl,
            rfl, hw, hr⟩
      · simp at hstep
  | blockCv j =>
    simp only [PR.step] at hstep
    cases hgj : g.threads[j]? with
    | none => rw [hgj] at hstep; simp at hstep
    | some tj =>
      rw [hgj, Option.some_bind] at hstep
      split at hstep
      · rename_i hcond
        injection hstep with hg'
        subst hg'
        by_cases hij : j = i
        · subst hij
          have htj : tj = th := Option.some.inj (hgj.symm.trans hget)
          subst htj
          have hfalse := hcond.2.2
          rw [hce] at hfalse
          cases hfalse
        · exact ⟨th, by rw [List.getElem?_set_ne hij]; exact hget, rfl, rfl,
            rfl, hw, hr⟩
      · simp at hstep
  | grantA j =>
    simp only [PR.step] at hstep
    cases hgj : g.threads[j]? with
    | none => rw [hgj] at hstep; simp at hstep
    | some tj =>
      rw [hgj, Option.some_bind] at hstep
      split at hstep
      · injection hstep with hg'
        subst hg'
        have hij : j ≠ i := fun h => ha (by rw [h])
        exact ⟨th, by rw [List.getElem?_set_ne hij]; exact hget, rfl, rfl,
          rfl, hw, hr⟩
      · simp at hstep
  | leaveA j =>
    simp only [PR.step] at hstep
    cases hgj : g.threads[j]? with
    | none => rw [hgj] at hstep; simp at hstep
    | some tj =>
      rw [hgj, Option.some_bind] at hstep
      split at hstep
      · rename_i hcond
        injection hstep with hg'
        subst hg'
        by_cases hij : j = i
        · subst hij
          have htj : tj = th := Option.some.inj (hgj.symm.trans hget)
          subst htj
          rw [hw] at hcond
          simp at hcond
        · refine ⟨{ th with runnable := true }, ?_, rfl, rfl, rfl, hw, rfl⟩
          rw [List.getElem?_map, List.getElem?_set_ne hij, hget,
            Option.map_some']
      · simp at hstep

theorem PR.run_keeps_enabled :
    ∀ (acts : List PR.Action) (g g' : PR.Global) (i : Nat) (th : PR.Thread),
      g.threads[i]? = some th → th.phase = PR.Phase.waiting →
      th.runnable = true →
      PR.run g acts = some g' →
      (∀ (pre rest : List PR.Action) (gmid : PR.Global),
        acts = pre ++ rest → PR.run g pre = some gmid →
        PR.can_enter th.role th.name th.returning gmid.monitor = true) →
      PR.Action.grantA i ∉ acts →
      ∃ th', g'.threads[i]? = some th' ∧ th'.role = th.role ∧
        th'.name = th.name ∧ th'.returning = th.returning ∧
        th'.phase = PR.Phase.waiting ∧ th'.runnable = true ∧
        PR.step g' (PR.Action.grantA i) ≠ none
  | [], g, g', i, th, hget, hw, hr, hrun, hce, _ => by
    simp only [PR.run, Option.some.injEq] at hrun
    subst hrun
    have hceg := hce [] [] g rfl rfl
    refine ⟨th, hget, rfl, rfl, rfl, hw, hr, ?_⟩
    simp only [PR.step]
    rw [hget, Option.some_bind, if_pos ⟨hw, hr, hceg⟩]
    simp
  | a :: rest, g, g', i, th, hget, hw, hr, hrun, hce, hnmem => by
    simp only [PR.run] at hrun
    cases hs : PR.step g a with
    | none => rw [hs] at hrun; simp at hrun
    | some g1 =>
      rw [hs, Option.some_bind] at hrun
      simp only [List.mem_cons, not_or] at hnmem
      obtain ⟨h1, h2⟩ := hnmem
      have hceg := hce [] (a :: rest) g rfl rfl
      obtain ⟨th1, hget1, hrole1, hname1, hret1, hph1, hr1⟩ :=
        PR.step_keeps_waiting hget hw hr hceg (fun h => h1 h.symm) hs
      have hce1 : ∀ (pre rest' : List PR.Action) (gmid : PR.Global),
          rest = pre ++ rest' → PR.run g1 pre = some gmid →
          PR.can_enter th1.role th1.name th1.returning gmid.monitor =
            true := by
        intro pre rest' gmid hdec hpre
        rw [hrole1, hname1, hret1]
        refine hce (a :: pre) rest' gmid (by rw [hdec]; rfl) ?_
        simp only [PR.run]
        rw [hs, Option.some_bind]
        exact hpre
      obtain ⟨th', b1, b2, b3, b4, b5, b6, b7⟩ :=
        PR.run_keeps_enabled rest g1 g' i th1 hget1 hph1 hr1 hrun hce1 h2
      exact ⟨th', b1, by rw [b2, hrole1], by rw [b3, hname1],
        by rw [b4, hret1], b5, b6, b7⟩

/-- C9: no lost wakeup, as two safety facts that give liveness under fair
scheduling.  First, `leave` wakes every thread (broadcast), so no blocked
`enter` caller stays blocked past a `leave`.  Second, once a runnable
waiting caller's admission predicate is true and remains true along a run
in which its own admission step is not taken, that admission step stays
enabled in every state of the run - so under any fair scheduler the caller
is eventually admitted. -/
theorem claim_no_lost_wakeup :
    (∀ (g g' : PR.Global) (i : Nat),
      PR.step g (PR.Action.leaveA i) = some g' →
      ∀ (j : Nat) (u : PR.Thread), g'.threads[j]? = some u →
        u.runnable = true) ∧
    (∀ (acts : List PR.Action) (g g' : PR.Global) (i : Nat)
        (th : PR.Thread),
      g.threads[i]? = some th → th.phase = PR.Phase.waiting →
      th.runnable = true → PR.run g acts = some g' →
      (∀ (pre rest : List PR.Action) (gmid : PR.Global),
        acts = pre ++ rest → PR.run g pre = some gmid →
        PR.can_enter th.role th.name th.returning gmid.monitor = true) →
      PR.Action.grantA i ∉ acts →
      PR.step g' (PR.Action.grantA i) ≠ none) := by
  refine ⟨?_, ?_⟩
  · intro g g' i hstep j u hju
    exact PR.leaveA_all_runnable hstep j u hju
  · intro acts g g' i th hget hw hr hrun hce hnmem
    obtain ⟨th', -, -, -, -, -, -, hen⟩ :=
      PR.run_keeps_enabled acts g g' i th hget hw hr hrun hce hnmem
    exact hen

theorem claim_no_lost_wakeup_witness :
    (PR.fifoMid.threads[1]? =
        some ⟨"TA", "TA-02", false, PR.Phase.waiting, true⟩ ∧
      PR.run PR.fifoMid [] = some PR.fifoMid ∧
      PR.Action.grantA 1 ∉ ([] : List PR.Action) ∧
      PR.can_enter "TA" "TA-02" false PR.fifoMid.monitor = true) ∧
    PR.step PR.fifoMid (PR.Action.grantA 1) ≠ none := by
  refine ⟨⟨by decide, rfl, by simp, by decide⟩, ?_⟩
  refine claim_no_lost_wakeup.2 [] PR.fifoMid PR.fifoMid 1
    ⟨"TA", "TA-02", false, PR.Phase.waiting, true⟩ (by decide) rfl rfl rfl
    ?_ (by simp)
  intro pre rest gmid hdec hpre
  cases pre with
  | nil =>
    simp only [PR.run, Option.some.injEq] at hpre
    subst hpre
    decide
  | cons b l => simp at hdec
